import Mathlib

/-!
Verification of the WASM SIMD color-matching kernel in
src/chafa/internal/chafa-wasm-simd.c.

The embedding models each exported function's arithmetic at the level of the
WASM SIMD lane semantics:

* `wasm_i16x8_mul` keeps only the low 16 bits of each lane product, and
  `wasm_i32x4_extadd_pairwise_i16x8` re-reads those 16-bit lanes as *signed*
  values; for byte differences `d` this yields `s16 (d * d)` per channel
  (`s16` interprets a value below 2^16 as a two's-complement 16-bit integer).
* All i32 lane additions stay well inside the signed 32-bit range for the
  byte-valued inputs these functions receive (worst case about ±1.7 * 10^7),
  so they are modelled as exact integer arithmetic.
* `wasm_i32x4_shr` is an arithmetic shift, i.e. floor division by 2^15.
* `wasm_i16x8_narrow_i32x4` saturates to the signed 16-bit range.
-/

set_option maxRecDepth 10000

/-- An 8-bit RGBA quadruple (`ChafaColor` / `ChafaPixel`: `guint8 ch[4]`). -/
structure Color where
  r : Fin 256
  g : Fin 256
  b : Fin 256
  a : Fin 256
deriving DecidableEq

/-- Modelled from the spec: `ChafaColorPair` (declared in a header that is not
part of this tree) holds exactly two Colors tagged foreground and background
(spec section 3).  In the source file's own comments `colors[1]` is the
foreground and `colors[0]` the background; `CHAFA_COLOR_PAIR_FG`/`BG` in
`chafa_calc_cell_error_wasm_simd` denote the same two entries symbolically. -/
structure ColorPair where
  bg : Color
  fg : Color
deriving DecidableEq

/-- Channel accessor in the C channel order R, G, B, A (`ch[0..3]`). -/
def Color.chan (c : Color) : Fin 4 → Nat :=
  ![(c.r : Nat), (c.g : Nat), (c.b : Nat), (c.a : Nat)]

/-- Reinterpret the low 16 bits of a natural number as a signed (two's
complement) 16-bit value, as `wasm_i32x4_extadd_pairwise_i16x8` does with
the lanes produced by `wasm_i16x8_mul`. -/
def s16 (x : Nat) : Int :=
  if x % 65536 < 32768 then ((x % 65536 : Nat) : Int)
  else ((x % 65536 : Nat) : Int) - 65536

/-- Absolute difference of two byte values.  In `chafa_calc_cell_error_wasm_simd`
this is computed as `wasm_u8x16_sub_sat(a,b) | wasm_u8x16_sub_sat(b,a)`;
in the other functions as a signed i16 subtraction whose square has the
same low 16 bits. -/
def absd (x y : Nat) : Nat := max x y - min x y

/-- Per-channel contribution to a SIMD squared distance: the square of the
byte difference computed in an i16 lane (`wasm_i16x8_mul` keeps the low
16 bits) and then re-read as a signed 16-bit value by the signed pairwise
widening add. -/
def sq16 (x y : Fin 256) : Int := s16 (absd (x : Nat) (y : Nat) * absd (x : Nat) (y : Nat))

/-- The four-channel "squared distance" actually produced by the SIMD lane
pipeline shared by `chafa_calc_cell_error_wasm_simd`,
`chafa_color_diff_4x_wasm_simd` (vector path) and
`chafa_work_cell_to_bitmap_wasm_simd`: the pairwise-add step sums
R^2+G^2 and B^2+A^2 (alpha included), and the following shuffle+add sums
those two lanes. -/
def dist4 (p c : Color) : Int :=
  sq16 p.r c.r + sq16 p.g c.g + sq16 p.b c.b + sq16 p.a c.a

/-- `chafa_calc_cell_error_wasm_simd`.  Per 8-pixel iteration the code adds
`partial + shuffled` into `err_accum`, where for each lane pair the value
`partial + shuffled` holds the full 4-channel squared error of half of the
pixels; the final horizontal reduction adds all four lanes of `err_accum`,
so every pixel's 4-channel error is counted twice.  The selected target is
`fg` where the per-pixel mask word is all-ones and `bg` where it is zero
(`wasm_v128_bitselect`). -/
def calcCellError (pixels : Nat → Color) (pair : ColorPair) (mask : Nat → Bool) : Int :=
  2 * ∑ i ∈ Finset.range 64, dist4 (pixels i) (if mask i then pair.fg else pair.bg)

/-- The `invdiv16` table copied verbatim from the source (257 entries). -/
def invdiv16 : List Nat :=
  [0, 32768, 16384, 10922, 8192, 6553, 5461, 4681, 4096, 3640, 3276,
   2978, 2730, 2520, 2340, 2184, 2048, 1927, 1820, 1724, 1638, 1560,
   1489, 1424, 1365, 1310, 1260, 1213, 1170, 1129, 1092, 1057, 1024,
   992, 963, 936, 910, 885, 862, 840, 819, 799, 780, 762, 744, 728,
   712, 697, 682, 668, 655, 642, 630, 618, 606, 595, 585, 574, 564,
   555, 546, 537, 528, 520, 512, 504, 496, 489, 481, 474, 468, 461,
   455, 448, 442, 436, 431, 425, 420, 414, 409, 404, 399, 394, 390,
   385, 381, 376, 372, 368, 364, 360, 356, 352, 348, 344, 341, 337,
   334, 330, 327, 324, 321, 318, 315, 312, 309, 306, 303, 300, 297,
   295, 292, 289, 287, 284, 282, 280, 277, 275, 273, 270, 268, 266,
   264, 262, 260, 258, 256, 254, 252, 250, 248, 246, 244, 242, 240,
   239, 237, 235, 234, 232, 230, 229, 227, 225, 224, 222, 221, 219,
   218, 217, 215, 214, 212, 211, 210, 208, 207, 206, 204, 203, 202,
   201, 199, 198, 197, 196, 195, 193, 192, 191, 190, 189, 188, 187,
   186, 185, 184, 183, 182, 181, 180, 179, 178, 177, 176, 175, 174,
   173, 172, 171, 170, 169, 168, 168, 167, 166, 165, 164, 163, 163,
   162, 161, 160, 159, 159, 158, 157, 156, 156, 155, 154, 153, 153,
   152, 151, 151, 150, 149, 148, 148, 147, 146, 146, 145, 144, 144,
   143, 143, 142, 141, 141, 140, 140, 139, 138, 138, 137, 137, 136,
   135, 135, 134, 134, 133, 133, 132, 132, 131, 131, 130, 130, 129,
   129, 128, 128]

/-- Saturation to the signed 16-bit range (`wasm_i16x8_narrow_i32x4`). -/
def sat16 (x : Int) : Int := max (-32768) (min 32767 x)

/-- `chafa_color_accum_div_scalar_wasm_simd`.  The accumulator is four signed
16-bit channels (the function loads exactly 64 bits).  The table entry is
splatted into i16 lanes, so entry 32768 (divisor 1) is read as -32768;
`wasm_i32x4_extmul_low_i16x8` is a signed full multiply, `+ 0x4000` and the
arithmetic shift by 15 emulate `mulhrs`, and the narrow saturates. -/
def divScalar (acc : Fin 4 → Int) (d : Nat) : Fin 4 → Int :=
  fun c => sat16 ((acc c * s16 (invdiv16.getD d 0) + 16384).fdiv 32768)

/-- `chafa_extract_cell_mean_colors_wasm_simd`.  The per-pixel mask has one
byte per channel, each 0x00 or 0xFF (modelled as a Bool per channel);
`pix & mask` goes to the foreground accumulator and `pix & ~mask` to the
background one.  All lane additions are exact (channel sums are at most
64 * 255 = 16320, inside signed i16), and the lo/hi and half-swap shuffle
reductions make each of the final lanes 0..3 the total of its channel over
all 64 pixels.  The result pair is `(accums_out[0], accums_out[1])`, i.e.
background first. -/
def extractMeans (pixels : Nat → Color) (mask : Nat → Fin 4 → Bool) :
    (Fin 4 → Nat) × (Fin 4 → Nat) :=
  (fun c => ∑ i ∈ Finset.range 64, if mask i c then 0 else (pixels i).chan c,
   fun c => ∑ i ∈ Finset.range 64, if mask i c then (pixels i).chan c else 0)

/-- Modelled from the spec: the unvectorized double loop of section 4.2 /
section 8 ("the sum an unvectorized double-loop over pixels and channels
would produce"), written as a literal fold over the 64 pixel indices for
each channel. -/
def refMeanExtract (pixels : Nat → Color) (mask : Nat → Fin 4 → Bool) :
    (Fin 4 → Nat) × (Fin 4 → Nat) :=
  (fun c => (List.range 64).foldl
      (fun s i => s + if mask i c then 0 else (pixels i).chan c) 0,
   fun c => (List.range 64).foldl
      (fun s i => s + if mask i c then (pixels i).chan c else 0) 0)

/-- The scalar-path squared RGB distance of `chafa_color_diff_4x_wasm_simd`
(lines 309-312): plain `gint` arithmetic on channels 0..2, alpha untouched.
This is also exactly the distance formula of spec section 4.4. -/
def rgbDist (t p : Color) : Int :=
  ((p.r : Int) - (t.r : Int)) * ((p.r : Int) - (t.r : Int)) +
  ((p.g : Int) - (t.g : Int)) * ((p.g : Int) - (t.g : Int)) +
  ((p.b : Int) - (t.b : Int)) * ((p.b : Int) - (t.b : Int))

/-- One step of the running-minimum scan: replace the current best only on a
strictly smaller distance (all four in-batch comparisons and the scalar
tail of `chafa_color_diff_4x_wasm_simd` have this exact form, and they are
performed in increasing index order). -/
def bestStep (b : Int × Nat) (p : Int × Nat) : Int × Nat :=
  if p.1 < b.1 then p else b

/-- `chafa_color_diff_4x_wasm_simd`.  Indices below `4 * (n / 4)` are
processed by the SIMD batch loop, whose per-color distance is the
four-channel `dist4` (the pairwise-add keeps alpha and the i16 squares
wrap); the remaining indices use the scalar `rgbDist`.  Since both the
batch loop and the in-batch comparisons run in increasing index order
with a strict `<`, the whole scan is one sequential fold started at
`best_dist = 0x7FFFFFFF`, `best_idx = 0`. -/
def colorDiff4x (target : Color) (palette : List Color) : Nat :=
  let n := palette.length
  let dists := (List.range n).map fun i =>
    (if i < 4 * (n / 4)
       then dist4 (palette.getD i ⟨0, 0, 0, 0⟩) target
       else rgbDist target (palette.getD i ⟨0, 0, 0, 0⟩), i)
  (dists.foldl bestStep (2147483647, 0)).2

/-- The per-pixel foreground decision of `chafa_work_cell_to_bitmap_wasm_simd`
(lines 392-395): the bit is set when the distance to the background exceeds
the distance to the foreground, both being the four-channel SIMD `dist4`. -/
def pixOnFg (pixels : Nat → Color) (pair : ColorPair) (i : Nat) : Bool :=
  decide (dist4 (pixels i) pair.fg < dist4 (pixels i) pair.bg)

/-- One 4-pixel group of bitmap bits, pixel `4*g` highest (`|= 8`) down to
pixel `4*g+3` lowest (`|= 1`). -/
def nibbleOf (pixels : Nat → Color) (pair : ColorPair) (g : Nat) : Nat :=
  (if pixOnFg pixels pair (4 * g) then 8 else 0) +
  (if pixOnFg pixels pair (4 * g + 1) then 4 else 0) +
  (if pixOnFg pixels pair (4 * g + 2) then 2 else 0) +
  (if pixOnFg pixels pair (4 * g + 3) then 1 else 0)

/-- `chafa_work_cell_to_bitmap_wasm_simd`: 16 iterations of
`bitmap = (bitmap << 4) | nibble`.  Starting from 0 and shifting in exactly
64 bits never wraps the `guint64`, so plain natural-number arithmetic is
exact. -/
def cellToBitmap (pixels : Nat → Color) (pair : ColorPair) : Nat :=
  (List.range 16).foldl (fun bm g => 16 * bm + nibbleOf pixels pair g) 0

/-! ## Helper lemmas -/

/-- A left fold that only accumulates a sum over `List.range` is the
corresponding `Finset.range` sum. -/
theorem foldl_add_eq_sum (f : Nat → Nat) (n a : Nat) :
    (List.range n).foldl (fun s i => s + f i) a = a + ∑ i ∈ Finset.range n, f i := by
  induction n with
  | zero => simp
  | succ n ih =>
    rw [List.range_succ, List.foldl_append]
    simp [ih, Finset.sum_range_succ, Nat.add_assoc]

/-! ## Claim theorems -/

/-- C1: the spec requires `calc_cell_error` to sum squared R,G,B differences
only (alpha excluded), returning 0 for the all-set mask and 19200 for the
all-clear mask in the concrete scenario.  The code instead also includes the
alpha channel, wraps squares of differences at or above 182 in signed i16
lanes, and counts every pixel twice in the lane reduction: it returns
-65408 and -27008 on the two scenario inputs. -/
theorem calc_cell_error_scenario_divergence :
    calcCellError (fun _ => ⟨10, 10, 10, 255⟩) ⟨⟨0, 0, 0, 0⟩, ⟨10, 10, 10, 0⟩⟩
      (fun _ => true) = -65408 ∧
    calcCellError (fun _ => ⟨10, 10, 10, 255⟩) ⟨⟨0, 0, 0, 0⟩, ⟨10, 10, 10, 0⟩⟩
      (fun _ => false) = -27008 := by
  exact ⟨by decide, by decide⟩

/-- C2: the spec requires `calc_cell_error`, `nearest_color` and
`cell_to_bitmap` to be invariant under changes that touch only alpha
channels.  All three functions change their output when only alpha values
change, because the SIMD paths feed all four channels (alpha included)
into the distance computation. -/
theorem alpha_dependence_divergence :
    calcCellError (fun _ => ⟨10, 10, 10, 255⟩) ⟨⟨0, 0, 0, 0⟩, ⟨10, 10, 10, 0⟩⟩
        (fun _ => true) ≠
      calcCellError (fun _ => ⟨10, 10, 10, 0⟩) ⟨⟨0, 0, 0, 0⟩, ⟨10, 10, 10, 0⟩⟩
        (fun _ => true) ∧
    colorDiff4x ⟨0, 0, 0, 0⟩
        [⟨10, 0, 0, 0⟩, ⟨10, 0, 0, 255⟩, ⟨181, 0, 0, 0⟩, ⟨181, 0, 0, 0⟩] ≠
      colorDiff4x ⟨0, 0, 0, 0⟩
        [⟨10, 0, 0, 0⟩, ⟨10, 0, 0, 0⟩, ⟨181, 0, 0, 0⟩, ⟨181, 0, 0, 0⟩] ∧
    cellToBitmap (fun _ => ⟨0, 0, 0, 255⟩) ⟨⟨1, 1, 1, 0⟩, ⟨0, 0, 0, 255⟩⟩ ≠
      cellToBitmap (fun _ => ⟨0, 0, 0, 0⟩) ⟨⟨1, 1, 1, 0⟩, ⟨0, 0, 0, 255⟩⟩ := by
  refine ⟨by decide, by decide, by decide⟩

/-- C3: the spec requires `div_scalar(value, divisor) = round(value/divisor)`
for all divisors 0..256 and channel values 0..16320.  For divisor 1 the
table entry 32768 wraps to -32768 when splatted into signed i16 lanes, so
the code negates instead of dividing: every channel of
`div_scalar({100,100,100,100}, 1)` is -100.  (Exact halves also round
down rather than up for non-power-of-two divisors:
`div_scalar({3,...}, 6)` gives 0, not round(0.5) = 1.) -/
theorem div_scalar_divergence :
    divScalar (fun _ => 100) 1 0 = -100 ∧ divScalar (fun _ => 100) 1 1 = -100 ∧
    divScalar (fun _ => 100) 1 2 = -100 ∧ divScalar (fun _ => 100) 1 3 = -100 ∧
    divScalar (fun _ => 3) 6 0 = 0 := by
  refine ⟨by decide, by decide, by decide, by decide, by decide⟩

/-- C4: the spec requires `nearest_color` to return an index of minimal
squared RGB distance (alpha excluded).  On the palette below the returned
index 0 has RGB distance 144 while index 1 has RGB distance 100: the SIMD
batch path adds the (i16-wrapped) squared alpha difference into the
distance, which makes entry 0 with alpha 255 look closer. -/
theorem nearest_color_not_rgb_argmin :
    colorDiff4x ⟨0, 0, 0, 0⟩
      [⟨12, 0, 0, 255⟩, ⟨10, 0, 0, 0⟩, ⟨181, 0, 0, 0⟩, ⟨181, 0, 0, 0⟩] = 0 ∧
    rgbDist ⟨0, 0, 0, 0⟩ ⟨10, 0, 0, 0⟩ < rgbDist ⟨0, 0, 0, 0⟩ ⟨12, 0, 0, 255⟩ := by
  exact ⟨by decide, by decide⟩

/-- C5: the spec requires the lowest index to win whenever several palette
entries attain the minimal RGB distance.  Entries 0 and 1 below are RGB
equidistant from the target (both at distance 100, the palette minimum),
yet the code returns index 1, because the alpha byte of entry 1 lowers
its SIMD distance below that of entry 0. -/
theorem nearest_color_tie_break_divergence :
    colorDiff4x ⟨0, 0, 0, 0⟩
      [⟨10, 0, 0, 0⟩, ⟨10, 0, 0, 255⟩, ⟨181, 0, 0, 0⟩, ⟨181, 0, 0, 0⟩] = 1 ∧
    rgbDist ⟨0, 0, 0, 0⟩ ⟨10, 0, 0, 0⟩ = rgbDist ⟨0, 0, 0, 0⟩ ⟨10, 0, 0, 255⟩ ∧
    rgbDist ⟨0, 0, 0, 0⟩ ⟨10, 0, 0, 0⟩ < rgbDist ⟨0, 0, 0, 0⟩ ⟨181, 0, 0, 0⟩ := by
  refine ⟨by decide, by decide, by decide⟩

/-- C6: the spec requires a bitmap bit to be set exactly when the pixel's
squared RGB distance (alpha excluded) to the foreground is strictly below
its distance to the background.  For the block of 64 pixels (0,0,0,255)
with fg = (0,0,0,255), bg = (1,1,1,0), the RGB distance to fg is 0 and to
bg is 3, so the spec demands the all-ones bitmap; the code returns 0
because the i16-wrapped alpha term makes the background distance
3 - 511 = -508 "larger" never, i.e. smaller than the foreground's 0. -/
theorem cell_to_bitmap_alpha_divergence :
    cellToBitmap (fun _ => ⟨0, 0, 0, 255⟩) ⟨⟨1, 1, 1, 0⟩, ⟨0, 0, 0, 255⟩⟩ = 0 ∧
    rgbDist ⟨0, 0, 0, 255⟩ ⟨0, 0, 0, 255⟩ < rgbDist ⟨0, 0, 0, 255⟩ ⟨1, 1, 1, 0⟩ := by
  exact ⟨by decide, by decide⟩

/-- C7: for every block and per-channel byte mask the two accumulators
partition the pixels: for each channel (alpha included) the background and
foreground sums add up to the plain sum of that channel over all 64
pixels, and the vectorized extraction equals the unvectorized double
loop bit-exactly. -/
theorem extract_mean_colors_partition (pixels : Nat → Color)
    (mask : Nat → Fin 4 → Bool) :
    (∀ c, (extractMeans pixels mask).1 c + (extractMeans pixels mask).2 c
        = ∑ i ∈ Finset.range 64, (pixels i).chan c) ∧
    (∀ c, (extractMeans pixels mask).1 c = (refMeanExtract pixels mask).1 c) ∧
    (∀ c, (extractMeans pixels mask).2 c = (refMeanExtract pixels mask).2 c) := by
  refine ⟨fun c => ?_, fun c => ?_, fun c => ?_⟩
  · show (∑ i ∈ Finset.range 64, if mask i c then 0 else (pixels i).chan c)
        + (∑ i ∈ Finset.range 64, if mask i c then (pixels i).chan c else 0)
        = ∑ i ∈ Finset.range 64, (pixels i).chan c
    rw [← Finset.sum_add_distrib]
    refine Finset.sum_congr rfl fun i _ => ?_
    by_cases h : mask i c <;> simp [h]
  · show (∑ i ∈ Finset.range 64, if mask i c then 0 else (pixels i).chan c)
        = (List.range 64).foldl
            (fun s i => s + if mask i c then 0 else (pixels i).chan c) 0
    rw [foldl_add_eq_sum (fun i => if mask i c then 0 else (pixels i).chan c) 64 0]
    simp
  · show (∑ i ∈ Finset.range 64, if mask i c then (pixels i).chan c else 0)
        = (List.range 64).foldl
            (fun s i => s + if mask i c then (pixels i).chan c else 0) 0
    rw [foldl_add_eq_sum (fun i => if mask i c then (pixels i).chan c else 0) 64 0]
    simp

/-- C8 counterexample: the table entry for divisor 3 is 10922, the
floor of 32768/3, not round(32768/3) = 10923. -/
theorem invdiv16_entry_three_not_round :
    ¬ invdiv16.getD 3 0 = (2 * 32768 + 3) / (2 * 3) := by decide

/-- C8 (amended): the reciprocal table has exactly 257 entries for divisors
0..256; entry 0 is 0 and entry d is the floor of 32768/d for d ≥ 1. -/
theorem invdiv16_floor_table :
    invdiv16.length = 257 ∧
    ∀ d : Fin 257, invdiv16.getD d 0 =
      if (d : Nat) = 0 then 0 else 32768 / (d : Nat) := by
  exact ⟨by decide, by decide⟩

/-- Each 4-pixel group contributes a value below 16. -/
theorem nibbleOf_lt (pixels : Nat → Color) (pair : ColorPair) (g : Nat) :
    nibbleOf pixels pair g < 16 := by
  unfold nibbleOf
  split_ifs <;> omega

/-- Bit `k` of the MSB-first nibble fold is bit `k % 4` of the nibble shifted
in at step `n - 1 - k / 4`. -/
theorem foldl_nibble_testBit (f : Nat → Nat) (hf : ∀ g, f g < 16) :
    ∀ n k : Nat, k < 4 * n →
      Nat.testBit ((List.range n).foldl (fun bm g => 16 * bm + f g) 0) k
        = Nat.testBit (f (n - 1 - k / 4)) (k % 4) := by
  intro n
  induction n with
  | zero => intro k hk; omega
  | succ n ih =>
    intro k hk
    rw [List.range_succ, List.foldl_append]
    simp only [List.foldl_cons, List.foldl_nil]
    have key := Nat.testBit_mul_pow_two_add
      ((List.range n).foldl (fun bm g => 16 * bm + f g) 0)
      (show f n < 2 ^ 4 from hf n) k
    norm_num at key
    rw [key]
    by_cases hk4 : k < 4
    · rw [if_pos hk4]
      rw [show n + 1 - 1 - k / 4 = n from by omega, show k % 4 = k from by omega]
    · rw [if_neg hk4]
      rw [ih (k - 4) (by omega)]
      rw [show n - 1 - (k - 4) / 4 = n + 1 - 1 - k / 4 from by omega,
          show (k - 4) % 4 = k % 4 from by omega]

/-- Within a nibble, bit `3 - r` is the decision for pixel `4*g + r`. -/
theorem nibbleOf_testBit (pixels : Nat → Color) (pair : ColorPair)
    (g r : Nat) (hr : r < 4) :
    Nat.testBit (nibbleOf pixels pair g) (3 - r) = pixOnFg pixels pair (4 * g + r) := by
  interval_cases r <;>
  · unfold nibbleOf
    cases h0 : pixOnFg pixels pair (4 * g) <;>
    cases h1 : pixOnFg pixels pair (4 * g + 1) <;>
    cases h2 : pixOnFg pixels pair (4 * g + 2) <;>
    cases h3 : pixOnFg pixels pair (4 * g + 3) <;>
    simp [h0, h1, h2, h3] <;> decide

/-- C9: the coverage bitmap is packed most-significant-bit first: the
foreground/background decision of `chafa_work_cell_to_bitmap_wasm_simd`
for pixel `i` lands at bit `63 - i` of the returned 64-bit mask. -/
theorem cell_to_bitmap_msb_first (pixels : Nat → Color) (pair : ColorPair)
    (i : Nat) (h : i < 64) :
    Nat.testBit (cellToBitmap pixels pair) (63 - i) = pixOnFg pixels pair i := by
  unfold cellToBitmap
  rw [foldl_nibble_testBit (nibbleOf pixels pair) (nibbleOf_lt pixels pair)
      16 (63 - i) (by omega)]
  rw [show 16 - 1 - (63 - i) / 4 = i / 4 from by omega,
      show (63 - i) % 4 = 3 - i % 4 from by omega]
  have hmain := nibbleOf_testBit pixels pair (i / 4) (i % 4) (by omega)
  rw [show 4 * (i / 4) + i % 4 = i from by omega] at hmain
  exact hmain

/-- C9 witness: pixel 5 of a concrete block appears at bit 58. -/
theorem cell_to_bitmap_msb_first_witness :
    (5 : Nat) < 64 ∧
    Nat.testBit (cellToBitmap (fun _ => ⟨0, 0, 0, 0⟩) ⟨⟨1, 1, 1, 0⟩, ⟨0, 0, 0, 255⟩⟩)
        (63 - 5)
      = pixOnFg (fun _ => ⟨0, 0, 0, 0⟩) ⟨⟨1, 1, 1, 0⟩, ⟨0, 0, 0, 255⟩⟩ 5 :=
  ⟨by decide, cell_to_bitmap_msb_first _ _ 5 (by decide)⟩

/-- Squares of byte-channel differences are bounded. -/
theorem sq_channel_le (x y : Fin 256) :
    0 ≤ ((x : Int) - y) * ((x : Int) - y) ∧
    ((x : Int) - y) * ((x : Int) - y) ≤ 65025 := by
  have hx1 : (0 : Int) ≤ x := by exact_mod_cast Nat.zero_le (x : Nat)
  have hx2 : (x : Int) ≤ 255 := by exact_mod_cast Nat.lt_succ_iff.mp x.isLt
  have hy1 : (0 : Int) ≤ y := by exact_mod_cast Nat.zero_le (y : Nat)
  have hy2 : (y : Int) ≤ 255 := by exact_mod_cast Nat.lt_succ_iff.mp y.isLt
  exact ⟨mul_self_nonneg _, by nlinarith⟩

/-- A scalar-path RGB distance always beats the 0x7FFFFFFF sentinel. -/
theorem rgbDist_lt_sentinel (t p : Color) : rgbDist t p < 2147483647 := by
  unfold rgbDist
  have h1 := sq_channel_le p.r t.r
  have h2 := sq_channel_le p.g t.g
  have h3 := sq_channel_le p.b t.b
  linarith [h1.2, h2.2, h3.2]

/-- C10: for palettes of length 1 to 3 the SIMD batch loop runs zero times and
`chafa_color_diff_4x_wasm_simd` is the strictly sequential scalar scan: it
returns an in-range index whose squared RGB distance (alpha never read) is
minimal over the palette, and every smaller index has a strictly larger
distance, i.e. the lowest minimizing index wins. -/
theorem color_diff_small_palette (t : Color) (pal : List Color)
    (h1 : 1 ≤ pal.length) (h3 : pal.length ≤ 3) :
    colorDiff4x t pal < pal.length ∧
    (∀ j, j < pal.length →
      rgbDist t (pal.getD (colorDiff4x t pal) ⟨0, 0, 0, 0⟩)
        ≤ rgbDist t (pal.getD j ⟨0, 0, 0, 0⟩)) ∧
    (∀ j, j < colorDiff4x t pal →
      rgbDist t (pal.getD (colorDiff4x t pal) ⟨0, 0, 0, 0⟩)
        < rgbDist t (pal.getD j ⟨0, 0, 0, 0⟩)) := by
  rcases pal with _ | ⟨a, pal⟩
  · simp at h1
  rcases pal with _ | ⟨b, pal⟩
  · -- palette [a]
    have e : colorDiff4x t [a]
        = (bestStep (2147483647, 0) (rgbDist t a, 0)).2 := by
      simp only [colorDiff4x, List.length_cons, List.length_nil, List.range_succ,
        List.range_zero, List.map_append, List.map_cons, List.map_nil,
        List.foldl_append, List.foldl_cons, List.foldl_nil]
      norm_num
    have e0 : colorDiff4x t [a] = 0 := by
      rw [e]; unfold bestStep; split <;> rfl
    rw [e0]
    refine ⟨by norm_num, fun j hj => ?_, fun j hj => by omega⟩
    simp only [List.length_cons, List.length_nil] at hj
    interval_cases j
    simp
  rcases pal with _ | ⟨c, pal⟩
  · -- palette [a, b]
    have s1 : bestStep (2147483647, 0) (rgbDist t a, 0) = (rgbDist t a, 0) := by
      unfold bestStep; rw [if_pos (rgbDist_lt_sentinel t a)]
    have e : colorDiff4x t [a, b]
        = (bestStep (bestStep (2147483647, 0) (rgbDist t a, 0)) (rgbDist t b, 1)).2 := by
      simp only [colorDiff4x, List.length_cons, List.length_nil, List.range_succ,
        List.range_zero, List.map_append, List.map_cons, List.map_nil,
        List.foldl_append, List.foldl_cons, List.foldl_nil]
      norm_num
    rw [s1] at e
    by_cases hab : rgbDist t b < rgbDist t a
    · rw [show bestStep (rgbDist t a, 0) (rgbDist t b, 1) = (rgbDist t b, 1) from by
        unfold bestStep; rw [if_pos hab]] at e
      have e1 : colorDiff4x t [a, b] = 1 := e
      rw [e1]
      refine ⟨by norm_num, fun j hj => ?_, fun j hj => ?_⟩
      · simp only [List.length_cons, List.length_nil] at hj
        interval_cases j <;> simp [List.getD] <;> linarith
      · simp only [List.length_cons, List.length_nil] at hj
        interval_cases j
        simp [List.getD]
        linarith
    · rw [show bestStep (rgbDist t a, 0) (rgbDist t b, 1) = (rgbDist t a, 0) from by
        unfold bestStep; rw [if_neg hab]] at e
      have e0 : colorDiff4x t [a, b] = 0 := e
      rw [e0]
      refine ⟨by norm_num, fun j hj => ?_, fun j hj => by omega⟩
      simp only [List.length_cons, List.length_nil] at hj
      interval_cases j <;> simp [List.getD] <;> linarith
  rcases pal with _ | ⟨d, pal⟩
  · -- palette [a, b, c]
    have s1 : bestStep (2147483647, 0) (rgbDist t a, 0) = (rgbDist t a, 0) := by
      unfold bestStep; rw [if_pos (rgbDist_lt_sentinel t a)]
    have e : colorDiff4x t [a, b, c]
        = (bestStep (bestStep (bestStep (2147483647, 0) (rgbDist t a, 0))
            (rgbDist t b, 1)) (rgbDist t c, 2)).2 := by
      simp only [colorDiff4x, List.length_cons, List.length_nil, List.range_succ,
        List.range_zero, List.map_append, List.map_cons, List.map_nil,
        List.foldl_append, List.foldl_cons, List.foldl_nil]
      norm_num
    rw [s1] at e
    by_cases hab : rgbDist t b < rgbDist t a
    · rw [show bestStep (rgbDist t a, 0) (rgbDist t b, 1) = (rgbDist t b, 1) from by
        unfold bestStep; rw [if_pos hab]] at e
      by_cases hbc : rgbDist t c < rgbDist t b
      · rw [show bestStep (rgbDist t b, 1) (rgbDist t c, 2) = (rgbDist t c, 2) from by
          unfold bestStep; rw [if_pos hbc]] at e
        have e2 : colorDiff4x t [a, b, c] = 2 := e
        rw [e2]
        refine ⟨by norm_num, fun j hj => ?_, fun j hj => ?_⟩
        · simp only [List.length_cons, List.length_nil] at hj
          interval_cases j <;> simp [List.getD] <;> linarith
        · simp only [List.length_cons, List.length_nil] at hj
          interval_cases j <;> simp [List.getD] <;> linarith
      · rw [show bestStep (rgbDist t b, 1) (rgbDist t c, 2) = (rgbDist t b, 1) from by
          unfold bestStep; rw [if_neg hbc]] at e
        have e1 : colorDiff4x t [a, b, c] = 1 := e
        rw [e1]
        refine ⟨by norm_num, fun j hj => ?_, fun j hj => ?_⟩
        · simp only [List.length_cons, List.length_nil] at hj
          interval_cases j <;> simp [List.getD] <;> linarith
        · simp only [List.length_cons, List.length_nil] at hj
          interval_cases j
          simp [List.getD]
          linarith
    · rw [show bestStep (rgbDist t a, 0) (rgbDist t b, 1) = (rgbDist t a, 0) from by
        unfold bestStep; rw [if_neg hab]] at e
      by_cases hac : rgbDist t c < rgbDist t a
      · rw [show bestStep (rgbDist t a, 0) (rgbDist t c, 2) = (rgbDist t c, 2) from by
          unfold bestStep; rw [if_pos hac]] at e
        have e2 : colorDiff4x t [a, b, c] = 2 := e
        rw [e2]
        refine ⟨by norm_num, fun j hj => ?_, fun j hj => ?_⟩
        · simp only [List.length_cons, List.length_nil] at hj
          interval_cases j <;> simp [List.getD] <;> linarith
        · simp only [List.length_cons, List.length_nil] at hj
          interval_cases j <;> simp [List.getD] <;> linarith
      · rw [show bestStep (rgbDist t a, 0) (rgbDist t c, 2) = (rgbDist t a, 0) from by
          unfold bestStep; rw [if_neg hac]] at e
        have e0 : colorDiff4x t [a, b, c] = 0 := e
        rw [e0]
        refine ⟨by norm_num, fun j hj => ?_, fun j hj => by omega⟩
        simp only [List.length_cons, List.length_nil] at hj
        interval_cases j <;> simp [List.getD] <;> linarith
  · simp at h3

/-- C10 witness: a two-color palette, where the second entry is strictly
closer in RGB. -/
theorem color_diff_small_palette_witness :
    colorDiff4x ⟨0, 0, 0, 0⟩ [⟨9, 9, 9, 7⟩, ⟨1, 2, 3, 200⟩]
      < ([⟨9, 9, 9, 7⟩, ⟨1, 2, 3, 200⟩] : List Color).length :=
  (color_diff_small_palette ⟨0, 0, 0, 0⟩ [⟨9, 9, 9, 7⟩, ⟨1, 2, 3, 200⟩]
    (by decide) (by decide)).1
